import Mathlib

/-
Verification of dso-structured-data-permutation (src/main.py).

The program reads a delimited file (header record plus data rows), permutes
either the column order or the row order, and writes the result.  The shallow
embedding below models records as lists of strings and models the outcome of
each call to random.shuffle as an explicit parameter, constrained in the
theorems to be a permutation of the list the source shuffles.
-/

namespace DSO

/-- A record (one line of the delimited file) is an ordered list of fields. -/
abbrev Rec := List String

/-- Whitespace characters stripped by the int() builtin before parsing. -/
def isPySpace (c : Char) : Bool :=
  c == ' ' || c == '\t' || c == '\n' || c == '\r'

/-- Strip leading and trailing whitespace from a character list. -/
def stripChars (cs : List Char) : List Char :=
  ((cs.dropWhile isPySpace).reverse.dropWhile isPySpace).reverse

/-- Value of a nonempty list of decimal digits; none if empty or a non-digit occurs. -/
def digitsToNat? (cs : List Char) : Option Nat :=
  if cs = [] then none
  else
    cs.foldl
      (fun acc c =>
        match acc with
        | none => none
        | some n => if c.isDigit then some (n * 10 + (c.toNat - 48)) else none)
      (some 0)

/-- Embedding of the int(col) call at src/main.py line 101: CPython int() on a
string strips whitespace, accepts an optional sign followed by decimal digits,
and raises ValueError otherwise (underscore separators and non-ASCII digits are
not modelled).  Returns none where the source raises ValueError. -/
def pyParseInt (s : String) : Option Int :=
  match stripChars s.toList with
  | '+' :: rest => (digitsToNat? rest).map Int.ofNat
  | '-' :: rest => (digitsToNat? rest).map (fun n => -(n : Int))
  | rest => (digitsToNat? rest).map Int.ofNat

/-- Embedding of header.index(col) at src/main.py line 110: index of the first
exact (case-sensitive) match, none where the source raises ValueError. -/
def headerIndex (header : Rec) (col : String) : Option Nat :=
  header.findIdx? (fun h => h == col)

/-- One iteration of the token-resolution loop at src/main.py lines 98-114.
State is the exclude_indices set together with the list of tokens that were
warned about and skipped. -/
def resolveStep (header : Rec) (numCols : Nat)
    (acc : Finset Nat × List String) (col : String) : Finset Nat × List String :=
  match pyParseInt col with
  | some index =>
      if 0 ≤ index ∧ index < (numCols : Int) then (insert index.toNat acc.1, acc.2)
      else (acc.1, acc.2 ++ [col])
  | none =>
      match headerIndex header col with
      | some j => (insert j acc.1, acc.2)
      | none => (acc.1, acc.2 ++ [col])

/-- The whole resolution loop at src/main.py lines 97-114: fold resolveStep
over the exclusion tokens starting from the empty set and no warnings. -/
def resolveExcludes (header : Rec) (toks : List String) : Finset Nat × List String :=
  toks.foldl (resolveStep header header.length) (∅, [])

/-- Modelled from the spec (section 4.3): the per-token contract of the Column
Resolver, used only to be compared with the source fold resolveExcludes.
Integer parse first; an in-range index resolves to itself; a failed parse
falls back to exact header-name lookup; anything else resolves to nothing. -/
def resolveTokenSpec (header : Rec) (col : String) : Option Nat :=
  match pyParseInt col with
  | some index =>
      if 0 ≤ index ∧ index < (header.length : Int) then some index.toNat else none
  | none => headerIndex header col

/-- permute_indices at src/main.py line 118: all positions not excluded, in
original order. -/
def permuteIndices (n : Nat) (excl : Finset Nat) : List Nat :=
  (List.range n).filter (fun i => decide (i ∉ excl))

/-- The placement loop shared by src/main.py lines 126-131 and 155-161: walk
the given positions; an excluded position copies the original value, any other
position consumes the next element of vals (the source indexes vals directly;
the default "" is reached only where the source would raise, which cannot
happen when vals has one element per non-excluded position). -/
def placeVals (orig : Rec) (excl : Finset Nat) : List Nat → List String → Rec
  | [], _ => []
  | i :: is, vals =>
      if i ∈ excl then orig.getD i "" :: placeVals orig excl is vals
      else vals.headD "" :: placeVals orig excl is vals.tail

/-- Build the output record of length n from orig, excluded positions, and the
value sequence consumed at non-excluded positions (src/main.py lines 126-131
and 155-161, whose loop is for i in range(num_columns)). -/
def buildPermutedN (n : Nat) (orig : Rec) (excl : Finset Nat) (vals : List String) : Rec :=
  placeVals orig excl (List.range n) vals

/-- row_values at src/main.py line 150 (and permuted_columns before its
shuffle at line 122): the values of row at the non-excluded positions, in
original order. -/
def rowValues (n : Nat) (excl : Finset Nat) (row : Rec) : List String :=
  (permuteIndices n excl).map (fun i => row.getD i "")

/-- A data row rebuilt by the exclusion branch at src/main.py lines 148-161:
row_values is consumed in original (unshuffled) order, so this is the whole
remapping the source applies to a retained row. -/
def permutedRowExcl (n : Nat) (excl : Finset Nat) (row : Rec) : Rec :=
  buildPermutedN n row excl (rowValues n excl row)

/-- The no-exclusion remapping at src/main.py lines 138 and 164: take the
values at the (shuffled) index list in order. -/
def permutedNoExcl (idxs : List Nat) (xs : Rec) : Rec :=
  idxs.map (fun i => xs.getD i "")

/-- The data-row loop of the exclusion branch, src/main.py lines 143-161:
rows with the wrong field count are dropped and counted as warnings, the rest
are remapped.  Returns (output rows, number of warnings). -/
def processRowsExcl (n : Nat) (excl : Finset Nat) : List Rec → List Rec × Nat
  | [] => ([], 0)
  | r :: rs =>
      let rest := processRowsExcl n excl rs
      if r.length = n then (permutedRowExcl n excl r :: rest.1, rest.2)
      else (rest.1, rest.2 + 1)

/-- The data-row loop of the no-exclusion branch, src/main.py lines 143-146
and 163-164. -/
def processRowsNoExcl (idxs : List Nat) (n : Nat) : List Rec → List Rec × Nat
  | [] => ([], 0)
  | r :: rs =>
      let rest := processRowsNoExcl idxs n rs
      if r.length = n then (permutedNoExcl idxs r :: rest.1, rest.2)
      else (rest.1, rest.2 + 1)

/-- Result of one column-mode run: the written header, the written data rows
in order, the number of skipped-row warnings, and the unresolved-token
warnings. -/
structure ColResult where
  outHeader : Rec
  outRows : List Rec
  warnRows : Nat
  warnToks : List String
deriving DecidableEq, Repr

/-- Embedding of permute_columns (src/main.py lines 75-173) on an input that
parses into header :: rows.  toks is the exclude_columns list; the source
branches on its truthiness, so [] plays the role of None/empty.  shufVals is
the outcome of random.shuffle(permuted_columns) at line 123 and shufIdx the
outcome of random.shuffle(permute_indices) at line 137; each is consulted only
in its own branch. -/
def permute_columns (header : Rec) (rows : List Rec) (toks : List String)
    (shufVals : List String) (shufIdx : List Nat) : ColResult :=
  let n := header.length
  if toks ≠ [] then
    let res := resolveExcludes header toks
    let pr := processRowsExcl n res.1 rows
    ⟨buildPermutedN n header res.1 shufVals, pr.1, pr.2, res.2⟩
  else
    let pr := processRowsNoExcl shufIdx n rows
    ⟨permutedNoExcl shufIdx header, pr.1, pr.2, []⟩

/-- Embedding of permute_rows (src/main.py lines 177-197) on an input that
parses into header :: rows: the header is written first and unchanged, then
the buffered rows in the order produced by random.shuffle(rows) at line 190
(shufRows), with no field-count check.  Returns the output record stream. -/
def permute_rows (header : Rec) (shufRows : List Rec) : List Rec :=
  header :: shufRows

/-- Observable effects of one run, in order.  openOut is the output file being
opened for write (created or truncated) by the with statement at src/main.py
line 88 or 182; writeRec is one writer.writerow; warn is one logging.warning
for a skipped row; errorLog is one logging.error from the broad except. -/
inductive Event
  | openOut
  | writeRec (r : Rec)
  | warn
  | errorLog
deriving DecidableEq, Repr

/-- Events of the data-row loop in the exclusion branch (src/main.py lines
143-161): a warning per mismatched row, a write per retained row. -/
def rowEventsExcl (n : Nat) (excl : Finset Nat) : List Rec → List Event
  | [] => []
  | r :: rs =>
      (if r.length = n then Event.writeRec (permutedRowExcl n excl r) else Event.warn)
        :: rowEventsExcl n excl rs

/-- Events of the data-row loop in the no-exclusion branch (src/main.py lines
143-146 and 163-167). -/
def rowEventsNoExcl (idxs : List Nat) (n : Nat) : List Rec → List Event
  | [] => []
  | r :: rs =>
      (if r.length = n then Event.writeRec (permutedNoExcl idxs r) else Event.warn)
        :: rowEventsNoExcl idxs n rs

/-- Event trace of the body of permute_columns.  Both files are opened by the
with statement before any record is read, and open(output_file, "w") truncates
or creates the output, so openOut comes first.  On a record-less input,
next(reader) at line 92 raises StopIteration, which escapes the with block and
is caught by the broad except at line 172 and logged as an error. -/
def permute_columns_events (records : List Rec) (toks : List String)
    (shufVals : List String) (shufIdx : List Nat) : List Event :=
  match records with
  | [] => [Event.openOut, Event.errorLog]
  | header :: rows =>
      let n := header.length
      if toks ≠ [] then
        let excl := (resolveExcludes header toks).1
        Event.openOut :: Event.writeRec (buildPermutedN n header excl shufVals)
          :: rowEventsExcl n excl rows
      else
        Event.openOut :: Event.writeRec (permutedNoExcl shufIdx header)
          :: rowEventsNoExcl shufIdx n rows

/-- Event trace of the body of permute_rows (src/main.py lines 181-192):
open output, write the header unchanged, write the shuffled rows.  On a
record-less input, next(reader) at line 186 raises after the output was
already truncated, caught by the except at line 196. -/
def permute_rows_events (records : List Rec) (shufRows : List Rec) : List Event :=
  match records with
  | [] => [Event.openOut, Event.errorLog]
  | header :: _ => Event.openOut :: (permute_rows header shufRows).map Event.writeRec

/-- The broad try/except wrapping each permutation function (src/main.py
lines 87-173 and 181-197): if an I/O exception is raised after the first k
events of the body, the events already performed stand, the handler appends
one logging.error, and the function returns normally.  errAfter = none means
the body ran to completion. -/
def guardedEvents (body : List Event) (errAfter : Option Nat) : List Event :=
  match errAfter with
  | none => body
  | some k => body.take k ++ [Event.errorLog]

/-- Outcome of the open(input_file) probe in validate_input (src/main.py
lines 62-72). -/
inductive OpenResult
  | ok
  | notFound
  | openError
deriving DecidableEq, Repr

/-- validate_input at src/main.py lines 52-72: True exactly when the input
file opens; FileNotFoundError and every other exception return False. -/
def validate_input : OpenResult → Bool
  | .ok => true
  | .notFound => false
  | .openError => false

/-- Embedding of main (src/main.py lines 200-225): if validate_input fails
the process exits 1 before either permutation function runs, so no event is
produced; otherwise the guarded permutation body runs, always returns
normally, and main falls off the end, so the process exits 0.  Returns
(exit status, events). -/
def mainModel (openRes : OpenResult) (body : List Event) (errAfter : Option Nat) :
    Nat × List Event :=
  if validate_input openRes then (0, guardedEvents body errAfter)
  else (1, [])

/-- Selection of the values sitting at non-excluded positions of a record:
walk the position list and the record in parallel, keeping the values whose
position is not excluded.  Used to express which output values came from the
consumed shuffle sequence. -/
def pickNonExcl (excl : Finset Nat) : List Nat → List String → List String
  | i :: is, x :: xs =>
      if i ∈ excl then pickNonExcl excl is xs else x :: pickNonExcl excl is xs
  | _, _ => []

/-! ## Structural lemmas about the placement loop -/

theorem placeVals_length (orig : Rec) (excl : Finset Nat) :
    ∀ (is : List Nat) (vals : List String), (placeVals orig excl is vals).length = is.length := by
  intro is
  induction is with
  | nil => intro vals; rfl
  | cons i is ih =>
      intro vals
      by_cases h : i ∈ excl <;> simp [placeVals, h, ih]

theorem map_getD_range (xs : List String) :
    (List.range xs.length).map (fun i => xs.getD i "") = xs := by
  induction xs with
  | nil => rfl
  | cons x t ih =>
      have he : ((fun i => (x :: t).getD i "") ∘ Nat.succ) = (fun i => t.getD i "") := by
        funext i
        exact List.getD_cons_succ
      rw [List.length_cons, List.range_succ_eq_map, List.map_cons, List.map_map, he, ih]
      rfl

theorem placeVals_self (orig : Rec) (excl : Finset Nat) :
    ∀ is : List Nat,
      placeVals orig excl is
          ((is.filter (fun i => decide (i ∉ excl))).map (fun i => orig.getD i "")) =
        is.map (fun i => orig.getD i "") := by
  intro is
  induction is with
  | nil => rfl
  | cons i is ih =>
      by_cases h : i ∈ excl
      · rw [List.filter_cons_of_neg (by simp [h])]
        simp only [placeVals, if_pos h, List.map_cons]
        rw [ih]
      · rw [List.filter_cons_of_pos (by simp [h]), List.map_cons]
        simp only [placeVals, if_neg h, List.headD_cons, List.tail_cons, List.map_cons]
        rw [ih]

theorem permutedRowExcl_eq_self (n : Nat) (excl : Finset Nat) (r : Rec)
    (hr : r.length = n) : permutedRowExcl n excl r = r := by
  unfold permutedRowExcl buildPermutedN rowValues permuteIndices
  rw [← hr, placeVals_self, map_getD_range]

theorem pickNonExcl_placeVals (orig : Rec) (excl : Finset Nat) :
    ∀ (is : List Nat) (vals : List String),
      vals.length = (is.filter (fun i => decide (i ∉ excl))).length →
      pickNonExcl excl is (placeVals orig excl is vals) = vals := by
  intro is
  induction is with
  | nil =>
      intro vals hv
      simp only [List.filter_nil, List.length_nil, List.length_eq_zero] at hv
      simp [hv, placeVals, pickNonExcl]
  | cons i is ih =>
      intro vals hv
      by_cases h : i ∈ excl
      · rw [List.filter_cons_of_neg (by simpa using h)] at hv
        simp [placeVals, pickNonExcl, h, ih vals hv]
      · rw [List.filter_cons_of_pos (by simpa using h)] at hv
        match vals with
        | [] => simp at hv
        | v :: vs =>
            simp only [List.length_cons, Nat.succ.injEq] at hv
            simp [placeVals, pickNonExcl, h, ih vs hv]

theorem pickNonExcl_map (excl : Finset Nat) (f : Nat → String) :
    ∀ is : List Nat,
      pickNonExcl excl is (is.map f) =
        (is.filter (fun i => decide (i ∉ excl))).map f := by
  intro is
  induction is with
  | nil => rfl
  | cons i is ih =>
      by_cases h : i ∈ excl
      · simp [pickNonExcl, List.filter_cons, h, ih]
      · simp [pickNonExcl, List.filter_cons, h, ih]

theorem pickNonExcl_range (excl : Finset Nat) (n : Nat) (xs : Rec) (hx : xs.length = n) :
    pickNonExcl excl (List.range n) xs = rowValues n excl xs := by
  have h2 : (List.range n).map (fun i => xs.getD i "") = xs := by
    subst hx
    exact map_getD_range xs
  calc pickNonExcl excl (List.range n) xs
      = pickNonExcl excl (List.range n) ((List.range n).map (fun i => xs.getD i "")) := by
        rw [h2]
    _ = ((List.range n).filter (fun i => decide (i ∉ excl))).map (fun i => xs.getD i "") :=
        pickNonExcl_map excl _ (List.range n)
    _ = rowValues n excl xs := rfl

theorem placeVals_getD_mem (orig : Rec) (excl : Finset Nat) :
    ∀ (is : List Nat) (vals : List String) (k : Nat) (h : k < is.length),
      is.get ⟨k, h⟩ ∈ excl →
      (placeVals orig excl is vals).getD k "" = orig.getD (is.get ⟨k, h⟩) "" := by
  intro is
  induction is with
  | nil => intro vals k h; exact absurd h (by simp)
  | cons i is ih =>
      intro vals k h hk
      match k with
      | 0 =>
          simp only [List.get] at hk ⊢
          simp [placeVals, hk]
      | k + 1 =>
          simp only [List.get] at hk ⊢
          by_cases hi : i ∈ excl
          · simpa [placeVals, hi] using ih vals k _ hk
          · simpa [placeVals, hi] using ih vals.tail k _ hk

theorem buildPermutedN_getD_excl (n : Nat) (orig : Rec) (excl : Finset Nat)
    (vals : List String) (i : Nat) (hi : i < n) (hmem : i ∈ excl) :
    (buildPermutedN n orig excl vals).getD i "" = orig.getD i "" := by
  have h : i < (List.range n).length := by simpa using hi
  have := placeVals_getD_mem orig excl (List.range n) vals i h (by simpa using hmem)
  simpa [buildPermutedN] using this

/-! ## The data-row loops -/

theorem processRowsExcl_fst (n : Nat) (excl : Finset Nat) (rows : List Rec) :
    (processRowsExcl n excl rows).1 =
      (rows.filter (fun r => r.length == n)).map (permutedRowExcl n excl) := by
  induction rows with
  | nil => rfl
  | cons r rs ih =>
      by_cases h : r.length = n
      · rw [List.filter_cons_of_pos (by simp [h])]
        simp [processRowsExcl, h, ih]
      · rw [List.filter_cons_of_neg (by simp [h])]
        simp [processRowsExcl, h, ih]

theorem processRowsExcl_snd (n : Nat) (excl : Finset Nat) (rows : List Rec) :
    (processRowsExcl n excl rows).2 =
      (rows.filter (fun r => !(r.length == n))).length := by
  induction rows with
  | nil => rfl
  | cons r rs ih =>
      by_cases h : r.length = n
      · rw [List.filter_cons_of_neg (by simp [h])]
        simp [processRowsExcl, h, ih]
      · rw [List.filter_cons_of_pos (by simp [h])]
        simp [processRowsExcl, h, ih]

theorem processRowsNoExcl_fst (idxs : List Nat) (n : Nat) (rows : List Rec) :
    (processRowsNoExcl idxs n rows).1 =
      (rows.filter (fun r => r.length == n)).map (permutedNoExcl idxs) := by
  induction rows with
  | nil => rfl
  | cons r rs ih =>
      by_cases h : r.length = n
      · rw [List.filter_cons_of_pos (by simp [h])]
        simp [processRowsNoExcl, h, ih]
      · rw [List.filter_cons_of_neg (by simp [h])]
        simp [processRowsNoExcl, h, ih]

theorem processRowsNoExcl_snd (idxs : List Nat) (n : Nat) (rows : List Rec) :
    (processRowsNoExcl idxs n rows).2 =
      (rows.filter (fun r => !(r.length == n))).length := by
  induction rows with
  | nil => rfl
  | cons r rs ih =>
      by_cases h : r.length = n
      · rw [List.filter_cons_of_neg (by simp [h])]
        simp [processRowsNoExcl, h, ih]
      · rw [List.filter_cons_of_pos (by simp [h])]
        simp [processRowsNoExcl, h, ih]

/-! ## The token-resolution loop -/

theorem resolveStep_eq_some (header : Rec) (acc : Finset Nat × List String) (col : String)
    (j : Nat) (h : resolveTokenSpec header col = some j) :
    resolveStep header header.length acc col = (insert j acc.1, acc.2) := by
  unfold resolveStep
  unfold resolveTokenSpec at h
  cases hp : pyParseInt col with
  | some index =>
      simp only [hp] at h ⊢
      by_cases hr : 0 ≤ index ∧ index < (header.length : Int)
      · rw [if_pos hr] at h
        cases h
        rw [if_pos hr]
      · rw [if_neg hr] at h
        cases h
  | none =>
      simp only [hp] at h ⊢
      simp [h]

theorem resolveStep_eq_none (header : Rec) (acc : Finset Nat × List String) (col : String)
    (h : resolveTokenSpec header col = none) :
    resolveStep header header.length acc col = (acc.1, acc.2 ++ [col]) := by
  unfold resolveStep
  unfold resolveTokenSpec at h
  cases hp : pyParseInt col with
  | some index =>
      simp only [hp] at h ⊢
      by_cases hr : 0 ≤ index ∧ index < (header.length : Int)
      · rw [if_pos hr] at h
        cases h
      · rw [if_neg hr]
  | none =>
      simp only [hp] at h ⊢
      simp [h]

theorem resolveExcludes_foldl (header : Rec) :
    ∀ (toks : List String) (s : Finset Nat) (w : List String),
      toks.foldl (resolveStep header header.length) (s, w) =
        (s ∪ (toks.filterMap (resolveTokenSpec header)).toFinset,
          w ++ toks.filter (fun t => (resolveTokenSpec header t).isNone)) := by
  intro toks
  induction toks with
  | nil => intro s w; simp
  | cons t ts ih =>
      intro s w
      cases ht : resolveTokenSpec header t with
      | some j =>
          rw [List.foldl_cons, resolveStep_eq_some header (s, w) t j ht, ih]
          simp [List.filterMap_cons, ht, List.filter_cons,
            Finset.insert_union, Finset.union_insert]
      | none =>
          rw [List.foldl_cons, resolveStep_eq_none header (s, w) t ht, ih]
          simp [List.filterMap_cons, ht, List.filter_cons]

theorem resolveExcludes_fst (header : Rec) (toks : List String) :
    (resolveExcludes header toks).1 =
      (toks.filterMap (resolveTokenSpec header)).toFinset := by
  unfold resolveExcludes
  rw [resolveExcludes_foldl]
  simp

theorem resolveExcludes_snd (header : Rec) (toks : List String) :
    (resolveExcludes header toks).2 =
      toks.filter (fun t => (resolveTokenSpec header t).isNone) := by
  unfold resolveExcludes
  rw [resolveExcludes_foldl]
  simp

theorem mem_resolveExcludes (header : Rec) (toks : List String) (j : Nat) :
    j ∈ (resolveExcludes header toks).1 ↔
      ∃ t ∈ toks, resolveTokenSpec header t = some j := by
  rw [resolveExcludes_fst, List.mem_toFinset, List.mem_filterMap]

theorem resolveTokenSpec_lt (header : Rec) (t : String) (j : Nat)
    (h : resolveTokenSpec header t = some j) : j < header.length := by
  unfold resolveTokenSpec at h
  cases hp : pyParseInt t with
  | some index =>
      simp only [hp] at h
      by_cases hr : 0 ≤ index ∧ index < (header.length : Int)
      · rw [if_pos hr] at h
        cases h
        omega
      · rw [if_neg hr] at h
        cases h
  | none =>
      simp only [hp] at h
      unfold headerIndex at h
      exact (List.findIdx?_eq_some_iff_findIdx_eq.mp h).1

theorem mem_resolveExcludes_lt (header : Rec) (toks : List String) (j : Nat)
    (h : j ∈ (resolveExcludes header toks).1) : j < header.length := by
  obtain ⟨t, _, ht⟩ := (mem_resolveExcludes header toks j).mp h
  exact resolveTokenSpec_lt header t j ht

/-! ## Small list utilities -/

theorem forall₂_map_self {R : Rec → Rec → Prop} (f : Rec → Rec) (l : List Rec)
    (h : ∀ x ∈ l, R (f x) x) : List.Forall₂ R (l.map f) l := by
  induction l with
  | nil => exact List.Forall₂.nil
  | cons x xs ih =>
      exact List.Forall₂.cons (h x (by simp)) (ih (fun y hy => h y (by simp [hy])))

theorem permuteIndices_empty (n : Nat) : permuteIndices n ∅ = List.range n := by
  unfold permuteIndices
  simp

theorem rowValues_empty (n : Nat) (xs : Rec) (h : xs.length = n) :
    rowValues n ∅ xs = xs := by
  unfold rowValues
  rw [permuteIndices_empty, ← h, map_getD_range]

/-! ## Branch equations for permute_columns -/

theorem permute_columns_of_ne (header : Rec) (rows : List Rec) (toks : List String)
    (shufVals : List String) (shufIdx : List Nat) (h : toks ≠ []) :
    permute_columns header rows toks shufVals shufIdx =
      ⟨buildPermutedN header.length header (resolveExcludes header toks).1 shufVals,
        (processRowsExcl header.length (resolveExcludes header toks).1 rows).1,
        (processRowsExcl header.length (resolveExcludes header toks).1 rows).2,
        (resolveExcludes header toks).2⟩ := by
  simp [permute_columns, h]

theorem permute_columns_of_nil (header : Rec) (rows : List Rec)
    (shufVals : List String) (shufIdx : List Nat) :
    permute_columns header rows [] shufVals shufIdx =
      ⟨permutedNoExcl shufIdx header,
        (processRowsNoExcl shufIdx header.length rows).1,
        (processRowsNoExcl shufIdx header.length rows).2, []⟩ := by
  simp [permute_columns]

/-! ## Claims -/

/-- C2: in column-permutation mode, for every position p in the resolved
excluded PositionSet, the output value at position p equals the input value
at position p, both in the header and in every data row that is written to
the output (output rows are matched with the retained input rows in order). -/
theorem c2_excluded_positions_fixed (header : Rec) (rows : List Rec)
    (toks : List String) (shufVals : List String) (shufIdx : List Nat) (p : Nat)
    (hp : p ∈ (resolveExcludes header toks).1) :
    (permute_columns header rows toks shufVals shufIdx).outHeader.getD p "" =
        header.getD p "" ∧
      List.Forall₂ (fun rOut rIn => rOut.getD p "" = rIn.getD p "")
        (permute_columns header rows toks shufVals shufIdx).outRows
        (rows.filter (fun r => r.length == header.length)) := by
  by_cases htoks : toks = []
  · subst htoks
    simp [resolveExcludes] at hp
  · have hlt : p < header.length := mem_resolveExcludes_lt header toks p hp
    rw [permute_columns_of_ne header rows toks shufVals shufIdx htoks]
    constructor
    · exact buildPermutedN_getD_excl header.length header _ shufVals p hlt hp
    · rw [processRowsExcl_fst]
      apply forall₂_map_self
      intro r hr
      have hlen : r.length = header.length := by simpa using List.of_mem_filter hr
      rw [permutedRowExcl_eq_self header.length _ r hlen]

/-- C2 witness: header a,b,c with token b resolves to PositionSet containing
position 1, and a concrete run leaves position 1 fixed in header and row. -/
theorem c2_witness :
    1 ∈ (resolveExcludes ["a", "b", "c"] ["b"]).1 ∧
      ((permute_columns ["a", "b", "c"] [["1", "2", "3"]] ["b"] ["c", "a"]
              []).outHeader.getD 1 "" =
          (["a", "b", "c"] : Rec).getD 1 "" ∧
        List.Forall₂ (fun rOut rIn => rOut.getD 1 "" = rIn.getD 1 "")
          (permute_columns ["a", "b", "c"] [["1", "2", "3"]] ["b"] ["c", "a"]
            []).outRows
          ([["1", "2", "3"]].filter
            (fun r => r.length == (["a", "b", "c"] : Rec).length))) :=
  ⟨by decide,
    c2_excluded_positions_fixed ["a", "b", "c"] [["1", "2", "3"]] ["b"] ["c", "a"]
      [] 1 (by decide)⟩

/-- C9: with a non-empty exclusion token list (even one where no token
resolves), every retained data row keeps its non-excluded values at their
original positions, and the written data rows do not depend on the shuffled
value sequence at all; only the header consumes it. -/
theorem c9_rows_not_shuffled (header : Rec) (rows : List Rec) (toks : List String)
    (shufVals shufVals2 : List String) (shufIdx : List Nat) (htoks : toks ≠ []) :
    List.Forall₂
        (fun rOut rIn => ∀ i, i < header.length →
          i ∉ (resolveExcludes header toks).1 → rOut.getD i "" = rIn.getD i "")
        (permute_columns header rows toks shufVals shufIdx).outRows
        (rows.filter (fun r => r.length == header.length)) ∧
      (permute_columns header rows toks shufVals shufIdx).outRows =
        (permute_columns header rows toks shufVals2 shufIdx).outRows := by
  rw [permute_columns_of_ne header rows toks shufVals shufIdx htoks,
    permute_columns_of_ne header rows toks shufVals2 shufIdx htoks]
  constructor
  · rw [processRowsExcl_fst]
    apply forall₂_map_self
    intro r hr i hi hni
    rw [permutedRowExcl_eq_self header.length _ r (by simpa using List.of_mem_filter hr)]
  · rfl

/-- C9 witness: excluding b in an a,b,c header, a run whose shuffle outcome
swaps the two non-excluded header values still leaves the data row values at
their original positions. -/
theorem c9_witness :
    (["b"] : List String) ≠ [] ∧
      (List.Forall₂
          (fun rOut rIn => ∀ i, i < (["a", "b", "c"] : Rec).length →
            i ∉ (resolveExcludes ["a", "b", "c"] ["b"]).1 →
            rOut.getD i "" = rIn.getD i "")
          (permute_columns ["a", "b", "c"] [["1", "2", "3"]] ["b"] ["c", "a"]
            []).outRows
          ([["1", "2", "3"]].filter
            (fun r => r.length == (["a", "b", "c"] : Rec).length)) ∧
        (permute_columns ["a", "b", "c"] [["1", "2", "3"]] ["b"] ["c", "a"]
              []).outRows =
          (permute_columns ["a", "b", "c"] [["1", "2", "3"]] ["b"] ["a", "c"]
            []).outRows) :=
  ⟨by decide,
    c9_rows_not_shuffled ["a", "b", "c"] [["1", "2", "3"]] ["b"] ["c", "a"]
      ["a", "c"] [] (by decide)⟩

/-- C4: row-permutation mode writes the header first and unchanged, and the
multiset of output data rows, compared by full record content, equals the
multiset of input data rows. -/
theorem c4_row_mode_multiset (header : Rec) (rows shufRows : List Rec)
    (h : shufRows.Perm rows) :
    (permute_rows header shufRows).head? = some header ∧
      ((permute_rows header shufRows).tail : Multiset Rec) = (rows : Multiset Rec) := by
  exact ⟨rfl, Multiset.coe_eq_coe.mpr (by simpa [permute_rows] using h)⟩

/-- C4 witness: three concrete rows written in a shuffled order after the
unchanged header. -/
theorem c4_witness :
    ([["3", "c"], ["1", "a"], ["2", "b"]] : List Rec).Perm
        [["1", "a"], ["2", "b"], ["3", "c"]] ∧
      ((permute_rows ["id", "val"] [["3", "c"], ["1", "a"], ["2", "b"]]).head? =
          some ["id", "val"] ∧
        ((permute_rows ["id", "val"]
            [["3", "c"], ["1", "a"], ["2", "b"]]).tail : Multiset Rec) =
          ([["1", "a"], ["2", "b"], ["3", "c"]] : List Rec)) :=
  ⟨by decide,
    c4_row_mode_multiset ["id", "val"] [["1", "a"], ["2", "b"], ["3", "c"]]
      [["3", "c"], ["1", "a"], ["2", "b"]] (by decide)⟩

/-- C6: a token lands in the resolved PositionSet exactly when integer parse
puts it in range or, if the parse fails, exact case-sensitive header lookup
finds a first match (resolveTokenSpec); the warned-and-skipped tokens are
exactly those resolving to nothing, so no bad token fails the run; and
duplicate tokens are idempotent on the PositionSet. -/
theorem c6_resolver_contract (header : Rec) (toks : List String) :
    (∀ j, j ∈ (resolveExcludes header toks).1 ↔
        ∃ t ∈ toks, resolveTokenSpec header t = some j) ∧
      (resolveExcludes header toks).2 =
        toks.filter (fun t => (resolveTokenSpec header t).isNone) ∧
      (resolveExcludes header (toks ++ toks)).1 = (resolveExcludes header toks).1 := by
  refine ⟨mem_resolveExcludes header toks, resolveExcludes_snd header toks, ?_⟩
  ext j
  rw [mem_resolveExcludes, mem_resolveExcludes]
  simp [List.mem_append]

/-- C5: for every shuffle outcome, the multiset of values at non-excluded
positions of the output header equals that of the input header, and the same
holds independently for each written data row against the retained input row
it came from. -/
theorem c5_nonexcluded_multiset (header : Rec) (rows : List Rec) (toks : List String)
    (shufVals : List String) (shufIdx : List Nat)
    (hv : shufVals.Perm (rowValues header.length (resolveExcludes header toks).1 header))
    (hi : shufIdx.Perm (List.range header.length)) :
    ((rowValues header.length (resolveExcludes header toks).1
          (permute_columns header rows toks shufVals shufIdx).outHeader :
            Multiset String) =
        (rowValues header.length (resolveExcludes header toks).1 header :
          Multiset String)) ∧
      List.Forall₂
        (fun rOut rIn =>
          (rowValues header.length (resolveExcludes header toks).1 rOut :
              Multiset String) =
            (rowValues header.length (resolveExcludes header toks).1 rIn :
              Multiset String))
        (permute_columns header rows toks shufVals shufIdx).outRows
        (rows.filter (fun r => r.length == header.length)) := by
  by_cases htoks : toks = []
  · subst htoks
    have hexcl : (resolveExcludes header ([] : List String)).1 = ∅ := rfl
    rw [permute_columns_of_nil, hexcl]
    have hlen : shufIdx.length = header.length := by simpa using hi.length_eq
    constructor
    · rw [rowValues_empty _ _ (by simp [permutedNoExcl, hlen]),
        rowValues_empty _ _ rfl]
      refine Multiset.coe_eq_coe.mpr ?_
      have hid : (List.range header.length).map (fun i => header.getD i "") = header :=
        map_getD_range header
      have hperm := hi.map (fun i => header.getD i "")
      rw [hid] at hperm
      exact hperm
    · rw [processRowsNoExcl_fst]
      apply forall₂_map_self
      intro r hrmem
      have hrlen : r.length = header.length := by simpa using List.of_mem_filter hrmem
      rw [rowValues_empty _ _ (by simp [permutedNoExcl, hlen]),
        rowValues_empty _ _ hrlen]
      refine Multiset.coe_eq_coe.mpr ?_
      have hid : (List.range header.length).map (fun i => r.getD i "") = r := by
        rw [← hrlen]
        exact map_getD_range r
      have hperm := hi.map (fun i => r.getD i "")
      rw [hid] at hperm
      exact hperm
  · rw [permute_columns_of_ne header rows toks shufVals shufIdx htoks]
    constructor
    · have hlen1 : shufVals.length =
          ((List.range header.length).filter
            (fun i => decide (i ∉ (resolveExcludes header toks).1))).length := by
        have := hv.length_eq
        simpa [rowValues, permuteIndices] using this
      have houtlen :
          (buildPermutedN header.length header (resolveExcludes header toks).1
            shufVals).length = header.length := by
        simp [buildPermutedN, placeVals_length]
      have hpick := pickNonExcl_placeVals header (resolveExcludes header toks).1
        (List.range header.length) shufVals hlen1
      have hrange := pickNonExcl_range (resolveExcludes header toks).1 header.length
        (buildPermutedN header.length header (resolveExcludes header toks).1 shufVals)
        houtlen
      have hsel : rowValues header.length (resolveExcludes header toks).1
          (buildPermutedN header.length header (resolveExcludes header toks).1
            shufVals) = shufVals := by
        rw [← hrange]
        exact hpick
      rw [hsel]
      exact Multiset.coe_eq_coe.mpr hv
    · rw [processRowsExcl_fst]
      apply forall₂_map_self
      intro r hrmem
      rw [permutedRowExcl_eq_self header.length _ r
        (by simpa using List.of_mem_filter hrmem)]

/-- C5 witness: header a,b,c with b excluded; the shuffle outcome c,a is a
permutation of the non-excluded header values a,c, and the concrete run
preserves the non-excluded multisets of header and row. -/
theorem c5_witness :
    (["c", "a"] : List String).Perm
        (rowValues (["a", "b", "c"] : Rec).length
          (resolveExcludes ["a", "b", "c"] ["b"]).1 ["a", "b", "c"]) ∧
      ([0, 1, 2] : List Nat).Perm (List.range (["a", "b", "c"] : Rec).length) ∧
      (((rowValues (["a", "b", "c"] : Rec).length
            (resolveExcludes ["a", "b", "c"] ["b"]).1
            (permute_columns ["a", "b", "c"] [["1", "2", "3"]] ["b"] ["c", "a"]
              [0, 1, 2]).outHeader : Multiset String) =
          (rowValues (["a", "b", "c"] : Rec).length
            (resolveExcludes ["a", "b", "c"] ["b"]).1 ["a", "b", "c"] :
              Multiset String)) ∧
        List.Forall₂
          (fun rOut rIn =>
            (rowValues (["a", "b", "c"] : Rec).length
                (resolveExcludes ["a", "b", "c"] ["b"]).1 rOut : Multiset String) =
              (rowValues (["a", "b", "c"] : Rec).length
                (resolveExcludes ["a", "b", "c"] ["b"]).1 rIn : Multiset String))
          (permute_columns ["a", "b", "c"] [["1", "2", "3"]] ["b"] ["c", "a"]
            [0, 1, 2]).outRows
          ([["1", "2", "3"]].filter
            (fun r => r.length == (["a", "b", "c"] : Rec).length))) :=
  ⟨by decide, by decide,
    c5_nonexcluded_multiset ["a", "b", "c"] [["1", "2", "3"]] ["b"] ["c", "a"]
      [0, 1, 2] (by decide) (by decide)⟩

/-- C1 fails on the code: in the exclusion branch the shuffled values are
consumed only for the header, while a data row is rebuilt from row_values in
original order (permuted_row_values at line 151 is never used).  Here the
exclusion list holds only the unresolvable token zzz, the shuffle outcome
b,a is a permutation of the non-excluded header values, and the run writes
header b,a but row 1,2 unchanged: output position 0 of the header comes from
source position 1, output position 0 of the row from source position 0. -/
theorem c1_mapping_not_shared_eval :
    (["b", "a"] : List String).Perm
        (rowValues 2 (resolveExcludes ["a", "b"] ["zzz"]).1 ["a", "b"]) ∧
      permute_columns ["a", "b"] [["1", "2"]] ["zzz"] ["b", "a"] [] =
        ⟨["b", "a"], [["1", "2"]], 0, ["zzz"]⟩ ∧
      (["b", "a"] : Rec).getD 0 "" = (["a", "b"] : Rec).getD 1 "" ∧
      (["1", "2"] : Rec).getD 0 "" = (["1", "2"] : Rec).getD 0 "" ∧
      (["1", "2"] : Rec).getD 0 "" ≠ (["1", "2"] : Rec).getD 1 "" := by
  refine ⟨by decide, by decide, by decide, rfl, by decide⟩

/-- C3 fails on the code in row mode: a data row with one field under a
two-field header is still written to the output, and no warning is emitted;
the identity shuffle outcome is a permutation of the buffered rows. -/
theorem c3_counterexample_row_mode :
    ([["1"]] : List Rec).Perm [["1"]] ∧
      permute_rows_events [["a", "b"], ["1"]] [["1"]] =
        [Event.openOut, Event.writeRec ["a", "b"], Event.writeRec ["1"]] ∧
      Event.warn ∉ permute_rows_events [["a", "b"], ["1"]] [["1"]] ∧
      (["1"] : Rec).length ≠ (["a", "b"] : Rec).length := by
  refine ⟨List.Perm.refl _, rfl, by decide, by decide⟩

/-- C3 amended: in column mode every data row whose field count differs from
the header is dropped with exactly one warning per such row and the run
continues (the output rows are those of the run on the retained rows alone,
and every written row has the header field count); in row mode no field-count
check is performed: every buffered row is written, whatever its width, and no
warning is emitted. -/
theorem c3_amended_width_handling (header : Rec) (rows : List Rec)
    (toks : List String) (shufVals : List String) (shufIdx : List Nat)
    (shufRows : List Rec) (hi : shufIdx.Perm (List.range header.length))
    (hr : shufRows.Perm rows) :
    ((permute_columns header rows toks shufVals shufIdx).warnRows =
        (rows.filter (fun r => !(r.length == header.length))).length ∧
      (permute_columns header rows toks shufVals shufIdx).outRows =
        (permute_columns header (rows.filter (fun r => r.length == header.length))
            toks shufVals shufIdx).outRows ∧
      ∀ r ∈ (permute_columns header rows toks shufVals shufIdx).outRows,
        r.length = header.length) ∧
      ((permute_rows header shufRows : Multiset Rec) =
          ((header :: rows : List Rec) : Multiset Rec) ∧
        Event.warn ∉ permute_rows_events (header :: rows) shufRows) := by
  have hfilter : (rows.filter (fun r => r.length == header.length)).filter
      (fun r => r.length == header.length) =
        rows.filter (fun r => r.length == header.length) := by
    apply List.filter_eq_self.mpr
    intro a ha
    simpa using List.of_mem_filter ha
  constructor
  · by_cases htoks : toks = []
    · subst htoks
      rw [permute_columns_of_nil, permute_columns_of_nil]
      refine ⟨processRowsNoExcl_snd shufIdx header.length rows, ?_, ?_⟩
      · rw [processRowsNoExcl_fst, processRowsNoExcl_fst, hfilter]
      · rw [processRowsNoExcl_fst]
        intro r hrmem
        obtain ⟨r0, _, hr0⟩ := List.mem_map.mp hrmem
        rw [← hr0]
        simp [permutedNoExcl]
        simpa using hi.length_eq
    · rw [permute_columns_of_ne header rows toks shufVals shufIdx htoks,
        permute_columns_of_ne header _ toks shufVals shufIdx htoks]
      refine ⟨processRowsExcl_snd header.length _ rows, ?_, ?_⟩
      · rw [processRowsExcl_fst, processRowsExcl_fst, hfilter]
      · rw [processRowsExcl_fst]
        intro r hrmem
        obtain ⟨r0, hr0mem, hr0⟩ := List.mem_map.mp hrmem
        have hlen : r0.length = header.length := by
          simpa using List.of_mem_filter hr0mem
        rw [← hr0, permutedRowExcl_eq_self header.length _ r0 hlen]
        exact hlen
  · constructor
    · exact Multiset.coe_eq_coe.mpr (List.Perm.cons header hr)
    · simp [permute_rows_events, permute_rows]

/-- C3 amended witness: a two-field header with one short row and one good
row; the short row is dropped with one warning in column mode and written
without warning in row mode. -/
theorem c3_amended_witness :
    ([1, 0] : List Nat).Perm (List.range (["a", "b"] : Rec).length) ∧
      ([["2", "3"], ["1"]] : List Rec).Perm [["1"], ["2", "3"]] ∧
      (((permute_columns ["a", "b"] [["1"], ["2", "3"]] [] [] [1, 0]).warnRows =
          (([["1"], ["2", "3"]] : List Rec).filter
            (fun r => !(r.length == (["a", "b"] : Rec).length))).length ∧
        (permute_columns ["a", "b"] [["1"], ["2", "3"]] [] [] [1, 0]).outRows =
          (permute_columns ["a", "b"]
              (([["1"], ["2", "3"]] : List Rec).filter
                (fun r => r.length == (["a", "b"] : Rec).length)) [] []
              [1, 0]).outRows ∧
        ∀ r ∈ (permute_columns ["a", "b"] [["1"], ["2", "3"]] [] [] [1, 0]).outRows,
          r.length = (["a", "b"] : Rec).length) ∧
        ((permute_rows ["a", "b"] [["2", "3"], ["1"]] : Multiset Rec) =
            ((["a", "b"] :: [["1"], ["2", "3"]] : List Rec) : Multiset Rec) ∧
          Event.warn ∉
            permute_rows_events (["a", "b"] :: [["1"], ["2", "3"]])
              [["2", "3"], ["1"]])) :=
  ⟨by decide, by decide,
    c3_amended_width_handling ["a", "b"] [["1"], ["2", "3"]] [] [] [1, 0]
      [["2", "3"], ["1"]] (by decide) (by decide)⟩

/-- C7: when the input probe fails, with a file-not-found or any other open
error, the process exits with a nonzero status and no output-file effect has
happened: the output file is not created, truncated, or written. -/
theorem c7_validate_fail_aborts (openRes : OpenResult) (body : List Event)
    (errAfter : Option Nat) (h : openRes ≠ OpenResult.ok) :
    (mainModel openRes body errAfter).1 ≠ 0 ∧
      (mainModel openRes body errAfter).2 = [] := by
  have hv : validate_input openRes = false := by
    cases openRes with
    | ok => exact absurd rfl h
    | notFound => rfl
    | openError => rfl
  simp [mainModel, hv]

/-- C7 witness: a missing input file exits nonzero with no output event. -/
theorem c7_witness :
    OpenResult.notFound ≠ OpenResult.ok ∧
      ((mainModel OpenResult.notFound [Event.openOut] none).1 ≠ 0 ∧
        (mainModel OpenResult.notFound [Event.openOut] none).2 = []) :=
  ⟨by decide,
    c7_validate_fail_aborts OpenResult.notFound [Event.openOut] none (by decide)⟩

/-- C8: an I/O exception raised after any number k of performed effects of
the permutation phase, in either mode, is caught and logged as an error, the
already-performed effects stand (the output keeps whatever incomplete state), the
function returns normally, and the process exits with status 0. -/
theorem c8_io_error_caught (records : List Rec) (toks : List String)
    (shufVals : List String) (shufIdx : List Nat) (shufRows : List Rec) (k : Nat) :
    mainModel OpenResult.ok (permute_columns_events records toks shufVals shufIdx)
        (some k) =
      (0, (permute_columns_events records toks shufVals shufIdx).take k
            ++ [Event.errorLog]) ∧
      mainModel OpenResult.ok (permute_rows_events records shufRows) (some k) =
        (0, (permute_rows_events records shufRows).take k ++ [Event.errorLog]) :=
  ⟨rfl, rfl⟩

/-- C10: on an input that decodes to zero records, in either mode, the output
file is opened for write (created or truncated) before the header read
raises, the broad handler logs the exception as an error, no record is
written, and the process still exits with status 0. -/
theorem c10_empty_input (toks : List String) (shufVals : List String)
    (shufIdx : List Nat) (shufRows : List Rec) :
    permute_columns_events [] toks shufVals shufIdx =
        [Event.openOut, Event.errorLog] ∧
      permute_rows_events [] shufRows = [Event.openOut, Event.errorLog] ∧
      mainModel OpenResult.ok (permute_columns_events [] toks shufVals shufIdx)
          none =
        (0, [Event.openOut, Event.errorLog]) ∧
      mainModel OpenResult.ok (permute_rows_events [] shufRows) none =
        (0, [Event.openOut, Event.errorLog]) ∧
      ∀ r : Rec, Event.writeRec r ∉ [Event.openOut, Event.errorLog] := by
  refine ⟨rfl, rfl, rfl, rfl, ?_⟩
  intro r
  simp

end DSO
